import Mathlib

set_option maxHeartbeats 1000000

set_option linter.unusedVariables false

/-!
Formal model of the MRE-PINN core: the differential-operator and
wave-equation residual code in `mre_pinn/pde.py` and the PINO training
pipeline in `mre_pinn/training/pino_training.py`, embedded shallowly.

Scalars on the autodiff side are dual numbers over the rationals: the
value component models the tensor value and the gradient component models
the reverse-mode sensitivity to a single displacement-network parameter,
so that `Tensor.detach` (which freezes a tensor for autograd) is
value-preserving but gradient-killing.  Data-pipeline arrays, which never
enter the autodiff graph at extraction time, are plain rational grids.
-/

/-- A tensor scalar together with its autograd sensitivity to one
displacement-network parameter. -/
structure Dual where
  val : ℚ
  grad : ℚ
deriving DecidableEq

instance : Add Dual := ⟨fun a b => ⟨a.val + b.val, a.grad + b.grad⟩⟩

instance : Mul Dual := ⟨fun a b => ⟨a.val * b.val, a.grad * b.val + a.val * b.grad⟩⟩

instance : Neg Dual := ⟨fun a => ⟨-a.val, -a.grad⟩⟩

instance (k : ℕ) : OfNat Dual k := ⟨⟨OfNat.ofNat k, 0⟩⟩

/-- Iterated product, modelling python `**` on autodiff scalars. -/
def Dual.pow (a : Dual) : ℕ → Dual
  | 0 => 1
  | k + 1 => a.pow k * a

instance : Pow Dual ℕ := ⟨Dual.pow⟩

/-- A python float constant, carried into the graph with no parameter
sensitivity. -/
def Dual.const (q : ℚ) : Dual := ⟨q, 0⟩

/-- torch.Tensor.detach: same value, removed from the autograd graph. -/
def Dual.detach (a : Dual) : Dual := ⟨a.val, 0⟩

/-- The IEEE double value of `np.pi`, as an exact rational. -/
def npPi : ℚ := 884279719003555 / 281474976710656

/-- Modelled from the spec: the automatic-differentiation backend primitive
`deepxde.grad.hessian`, an external collaborator not under src/.  Given a
component selector (`none` for single-channel outputs, per the deepxde
convention) and two input dimensions `i`, `j`, it yields at every sample
point the second derivative of that output component with respect to
input dimensions `i` and `j`. -/
def Hess (N : ℕ) : Type := Option ℕ → ℕ → ℕ → Fin N → Dual

/-- `mre_pinn.pde.laplacian`: for each output component `i` of an
(N, M) output tensor (component selector `none` when M = 1), sum the
hessian entries (j, j) for j in `range(dim, K)` starting from 0, and
concatenate the per-component columns along dimension 1. -/
def laplacian {N : ℕ} (H : Hess N) (M K dim : ℕ) : Fin N → Fin M → Dual :=
  fun n m =>
    let c : Option ℕ := if M > 1 then some m.val else none
    (List.range' dim (K - dim)).foldl (fun acc j => acc + H c j j n) 0

/-- `mre_pinn.pde.WaveEquation`: Navier-Cauchy equation for steady-state
elastic wave vibration. -/
structure WaveEquation where
  detach : Bool
  rho : ℚ
  homogeneous : Bool
  incompressible : Bool
  debug : Bool

/-- `WaveEquation.__init__(detach, rho=1000, debug=False)`. -/
def WaveEquation.init (detach : Bool) (rho : ℚ := 1000) (debug : Bool := false) :
    WaveEquation :=
  ⟨detach, rho, true, true, debug⟩

/-- `WaveEquation.__call__(x, outputs)`: x is an (N, 4) input tensor of
omega,x,y,z and outputs an (N, 4) tensor of ux,uy,uz,mu; returns the
(N, 3) PDE residual `mu * laplacian(u, x, dim=1) + rho * (2*pi*omega)**2 * u`,
with u and its Laplacian detached first when the detach flag is set. -/
def WaveEquation.call {N : ℕ} (eq : WaveEquation) (H : Hess N)
    (x : Fin N → Fin 4 → Dual) (outputs : Fin N → Fin 4 → Dual) :
    Fin N → Fin 3 → Dual :=
  let u : Fin N → Fin 3 → Dual := fun n m => outputs n (Fin.castSucc m)
  let mu : Fin N → Fin 1 → Dual := fun n _ => outputs n 3
  let omega : Fin N → Fin 1 → Dual := fun n _ => x n 0
  let laplace_u : Fin N → Fin 3 → Dual := laplacian H 3 4 1
  let u2 : Fin N → Fin 3 → Dual :=
    if eq.detach then fun n m => (u n m).detach else u
  let laplace_u2 : Fin N → Fin 3 → Dual :=
    if eq.detach then fun n m => (laplace_u n m).detach else laplace_u
  let div_stress : Fin N → Fin 3 → Dual := fun n m => mu n 0 * laplace_u2 n m
  let f : Fin N → Fin 3 → Dual := fun n m =>
    Dual.const eq.rho * (2 * Dual.const npPi * omega n 0) ^ 2 * u2 n m
  fun n m => div_stress n m + f n m

/-- Modelled from the spec: the caller-supplied masked-loss collaborator
applied to the PDE residual, instantiated as a sum of squared residual
entries, used to state the gradient-blocking property of the detach flag. -/
def sumSq {N : ℕ} (res : Fin N → Fin 3 → Dual) : Dual :=
  (List.finRange N).foldl
    (fun acc n => (List.finRange 3).foldl (fun a2 m => a2 + res n m * res n m) acc) 0

/-- A coordinate tensor together with its autograd `requires_grad` flag. -/
structure GradTensor (N K : ℕ) where
  val : Fin N → Fin K → Dual
  requires_grad : Bool

/-- Modelled from the spec: `WaveEquation.traction_and_body_forces`, called
by `PINOModel.predict` but absent from src/.  Following the spec's
operator-style residual `mu * Laplacian(u) + rho * (2*pi*omega)**2 * u`, it
splits that residual into the traction term `mu * Laplacian(u)` and the
body-force term `rho * (2*pi*omega)**2 * u`, with omega read from the
first input column as in `WaveEquation.__call__`. -/
def WaveEquation.traction_and_body_forces {N K M : ℕ} (eq : WaveEquation)
    (H : Hess N) (x : Fin N → Fin (K + 1) → Dual) (u : Fin N → Fin M → Dual)
    (mu : Fin N → Fin 1 → Dual) :
    (Fin N → Fin M → Dual) × (Fin N → Fin M → Dual) :=
  (fun n m => mu n 0 * laplacian H M (K + 1) 1 n m,
   fun n m => Dual.const eq.rho * (2 * Dual.const npPi * x n 0) ^ 2 * u n m)

/-- `PINOModel.predict(a, x)`: enable gradient tracking on the coordinate
tensor, run the network forward pass (with debug=True) to get the
displacement and modulus predictions, compute the Laplacian of the
predicted displacement, split the PDE residual into traction and
body-force components, and return all of these quantities. -/
def predict {A : Type} {N K M : ℕ}
    (net : A → GradTensor N (K + 1) → Bool →
      (Fin N → Fin M → Dual) × (Fin N → Fin 1 → Dual))
    (H : Hess N) (pdeEq : WaveEquation) (a : A) (x : GradTensor N (K + 1)) :
    (Fin N → Fin M → Dual) × (Fin N → Fin 1 → Dual) × (Fin N → Fin M → Dual) ×
      (Fin N → Fin M → Dual) × (Fin N → Fin M → Dual) :=
  let x2 : GradTensor N (K + 1) := { x with requires_grad := true }
  let fwd := net a x2 true
  let u_pred := fwd.1
  let mu_pred := fwd.2
  let lu_pred := laplacian H M (K + 1) 0
  let tb := pdeEq.traction_and_body_forces H x2.val u_pred mu_pred
  (u_pred, mu_pred, lu_pred, tb.1, tb.2)

/-- A voxel grid with `c` trailing channels. -/
def Grid4 (H W Dp c : ℕ) : Type := Fin H → Fin W → Fin Dp → Fin c → ℚ

/-- A patient record: immutable co-registered arrays sharing one spatial
grid, together with the coordinate accessor of the wave field. -/
structure Patient (H W Dp : ℕ) where
  t1_pre_in : Fin H → Fin W → Fin Dp → ℚ
  t1_pre_out : Fin H → Fin W → Fin Dp → ℚ
  t1_pre_water : Fin H → Fin W → Fin Dp → ℚ
  t1_pre_fat : Fin H → Fin W → Fin Dp → ℚ
  wave : Fin H → Fin W → Fin Dp → ℚ
  wavePoints : Fin H → Fin W → Fin Dp → Fin 3 → ℚ
  mre : Fin H → Fin W → Fin Dp → ℚ
  mre_mask : Fin H → Fin W → Fin Dp → ℚ

/-- The tensors `PINOData.get_tensors` builds from a patient record: the
anatomical stack `a` of the four t1_pre channels, the coordinates `x`
scaled by 1e-3, the wave displacement `u`, the elastogram `mu` and the
mask, returned as `(u, x), cat([u, mu, mask], dim=-1), ()`.  The
anatomical stack is extracted but appears in neither inputs nor targets. -/
def getTensorsOk {H W Dp : ℕ} (p : Patient H W Dp) :
    (Grid4 H W Dp 1 × Grid4 H W Dp 3) × Grid4 H W Dp 3 × Unit :=
  let a : Grid4 H W Dp 4 := fun i j k c =>
    if c.val = 0 then p.t1_pre_in i j k
    else if c.val = 1 then p.t1_pre_out i j k
    else if c.val = 2 then p.t1_pre_water i j k
    else p.t1_pre_fat i j k
  let x : Grid4 H W Dp 3 := fun i j k c => p.wavePoints i j k c * (1 / 1000)
  let u : Grid4 H W Dp 1 := fun i j k _ => p.wave i j k
  let mu : Grid4 H W Dp 1 := fun i j k _ => p.mre i j k
  let mask : Grid4 H W Dp 1 := fun i j k _ => p.mre_mask i j k
  let _keep := a
  ((u, x),
   (fun i j k c =>
     if c.val = 0 then u i j k 0
     else if c.val = 1 then mu i j k 0
     else mask i j k 0), ())

/-- `PINOData.get_tensors(idx, patch_size)`: when `patch_size` is set the
patch branch executes `n_x, n_y, n_z = y.shape[:3]` where `y` is an
undefined name, so the call raises NameError before cropping anything;
otherwise it returns the extracted tensors. -/
def getTensors {H W Dp : ℕ} (p : Patient H W Dp) (patch_size : Option ℕ) :
    Except String ((Grid4 H W Dp 1 × Grid4 H W Dp 3) × Grid4 H W Dp 3 × Unit) :=
  match patch_size with
  | some _ => Except.error "NameError: name y is not defined"
  | none => Except.ok (getTensorsOk p)

/-- Modelled from the spec: `deepxde.data.BatchSampler` (external to src/),
holding a shuffled per-epoch ordering of the patient indices and a cursor;
draws advance the cursor without replacement and, once the epoch ordering
is exhausted, the sampler reshuffles.  Shuffling randomness is supplied
externally as a stream of epoch orderings. -/
structure BatchSampler (n : ℕ) where
  order : List (Fin n)
  cursor : ℕ
  epoch : ℕ
  stream : ℕ → List (Fin n)

/-- Modelled from the spec: draw the next `B` indices without replacement
from the current epoch ordering; when the remaining ordering cannot serve
the request, reshuffle and draw from the fresh epoch ordering. -/
def BatchSampler.getNext {n : ℕ} (s : BatchSampler n) (B : ℕ) :
    List (Fin n) × BatchSampler n :=
  if s.cursor + B ≤ n then
    ((s.order.drop s.cursor).take B, { s with cursor := s.cursor + B })
  else
    let order := s.stream s.epoch
    (order.take B, { s with order := order, cursor := B, epoch := s.epoch + 1 })

/-- `PINOData`: the training-data pipeline state.  `pde` is the
caller-supplied residual collaborator invoked as `pde(x, u_pred, mu_pred)`. -/
structure PINOData (n H W Dp N K Mr : ℕ) where
  cohort : Fin n → Patient H W Dp
  pde : (Fin N → Fin K → ℚ) → (Fin N → Fin 1 → ℚ) → (Fin N → Fin 1 → ℚ) →
    Fin N → Fin Mr → ℚ
  mask_level : ℚ
  sampler : BatchSampler n
  batch_size : Option ℕ
  patch_size : Option ℕ
  device : String

/-- `PINOData.__init__`: store the collaborators, fix `mask_level` at 1.0
and build a shuffled batch sampler over the cohort (shuffle randomness is
supplied externally as a stream of orderings). -/
def PINOData.init {n H W Dp N K Mr : ℕ} (cohort : Fin n → Patient H W Dp)
    (pde : (Fin N → Fin K → ℚ) → (Fin N → Fin 1 → ℚ) → (Fin N → Fin 1 → ℚ) →
      Fin N → Fin Mr → ℚ)
    (patch_size batch_size : Option ℕ) (device : String)
    (rand : ℕ → List (Fin n)) : PINOData n H W Dp N K Mr :=
  { cohort := cohort
    pde := pde
    mask_level := 1
    sampler := { order := rand 0, cursor := 0, epoch := 1, stream := rand }
    batch_size := batch_size
    patch_size := patch_size
    device := device }

/-- `PINOData.losses(targets, outputs, loss_fn, inputs, model, aux)`:
split `targets` along the last axis into displacement truth, modulus truth
and mask; take the first two outputs as the displacement and modulus
predictions; return the list of the displacement data loss, the modulus
data loss and the PDE-residual loss (residual against zero), each through
the caller-supplied loss function at the instance's mask level. -/
def PINOData.losses {n H W Dp N K Mr : ℕ} (d : PINOData n H W Dp N K Mr)
    (targets : Fin N → Fin 3 → ℚ)
    (outputs : List (Fin N → Fin 1 → ℚ))
    (loss_fn : (M : ℕ) → (Fin N → Fin M → ℚ) → (Fin N → Fin M → ℚ) →
      (Fin N → Fin 1 → ℚ) → ℚ → ℚ)
    (inputs : (Fin N → Fin 1 → ℚ) × (Fin N → Fin K → ℚ))
    (model : Unit) (aux : Option Unit) : Except String (List ℚ) :=
  match outputs with
  | u_pred :: mu_pred :: _ =>
    let x := inputs.2
    let u_true : Fin N → Fin 1 → ℚ := fun nn _ => targets nn 0
    let mu_true : Fin N → Fin 1 → ℚ := fun nn _ => targets nn 1
    let mask : Fin N → Fin 1 → ℚ := fun nn _ => targets nn 2
    let u_loss := loss_fn 1 u_true u_pred mask d.mask_level
    let mu_loss := loss_fn 1 mu_true mu_pred mask d.mask_level
    let pde_res := d.pde x u_pred mu_pred
    let pde_loss := loss_fn Mr (fun _ _ => 0) pde_res mask d.mask_level
    Except.ok [u_loss, mu_loss, pde_loss]
  | _ => Except.error "ValueError: not enough outputs to unpack"

/-- Sequence a list of fallible per-sample extractions; the first failing
sample aborts the whole batch. -/
def collectE {α : Type} : List (Except String α) → Except String (List α)
  | [] => Except.ok []
  | Except.error e :: _ => Except.error e
  | Except.ok v :: rest =>
    match collectE rest with
    | Except.error e => Except.error e
    | Except.ok vs => Except.ok (v :: vs)

/-- A stacked batch: per-sample tensors collected along a new batch axis. -/
def BatchT (H W Dp : ℕ) : Type :=
  (List (Grid4 H W Dp 1) × List (Grid4 H W Dp 3)) × List (Grid4 H W Dp 3) × Unit

/-- `PINOData.train_next_batch(batch_size, return_inds)`: resolve the
batch size, draw the next indices from the batch sampler, extract and
stack per-index tensors along a new batch axis, and return the drawn
indices alongside the batch exactly when `return_inds` is requested. -/
def PINOData.train_next_batch {n H W Dp N K Mr : ℕ}
    (d : PINOData n H W Dp N K Mr)
    (batch_size : Option ℕ) (return_inds : Bool) :
    Except String ((BatchT H W Dp × List (Fin n)) ⊕ BatchT H W Dp) ×
      PINOData n H W Dp N K Mr :=
  let B : ℕ :=
    match batch_size with
    | some b => b
    | none => match d.batch_size with | some b => b | none => n
  let next := d.sampler.getNext B
  let batch_inds := next.1
  let d2 := { d with sampler := next.2 }
  let per := batch_inds.map fun i => getTensors (d.cohort i) d.patch_size
  let result :=
    match collectE per with
    | Except.error e => Except.error e
    | Except.ok samples =>
      let inputs := (samples.map fun s => s.1.1, samples.map fun s => s.1.2)
      let targets := samples.map fun s => s.2.1
      let batch : BatchT H W Dp := (inputs, targets, ())
      if return_inds then Except.ok (Sum.inl (batch, batch_inds))
      else Except.ok (Sum.inr batch)
  (result, d2)

/-- `PINOData.test(return_inds)`: a convenience single-sample batch. -/
def PINOData.test {n H W Dp N K Mr : ℕ} (d : PINOData n H W Dp N K Mr)
    (return_inds : Bool) :
    Except String ((BatchT H W Dp × List (Fin n)) ⊕ BatchT H W Dp) ×
      PINOData n H W Dp N K Mr :=
  d.train_next_batch (some 1) return_inds

/-- The stacked batch built from the drawn indices (patch cropping off). -/
def stackBatch {n H W Dp N K Mr : ℕ} (d : PINOData n H W Dp N K Mr)
    (inds : List (Fin n)) : BatchT H W Dp :=
  let samples := inds.map fun i => getTensorsOk (d.cohort i)
  ((samples.map fun s0 => s0.1.1, samples.map fun s0 => s0.1.2),
   samples.map fun s0 => s0.2.1, ())

/-- Repeatedly draw batches of size `B` from the sampler, `q` times,
concatenating the drawn indices. -/
def epochDraws {n : ℕ} (s : BatchSampler n) (B : ℕ) :
    ℕ → List (Fin n) × BatchSampler n
  | 0 => ([], s)
  | q + 1 =>
    let first := s.getNext B
    let rest := epochDraws first.2 B q
    (first.1 ++ rest.1, rest.2)

/-- The pipeline operations that touch a `PINOData` instance's mutable
state (the batch sampler is the only persistent mutable state). -/
inductive PipelineOp where
  | trainBatch (batch_size : Option ℕ) (return_inds : Bool)
  | testBatch (return_inds : Bool)

/-- State transition of one pipeline operation. -/
def applyOp {n H W Dp N K Mr : ℕ} (d : PINOData n H W Dp N K Mr) :
    PipelineOp → PINOData n H W Dp N K Mr
  | PipelineOp.trainBatch bs ri => (d.train_next_batch bs ri).2
  | PipelineOp.testBatch ri => (d.test ri).2

/-- State after a sequence of pipeline operations. -/
def applyOps {n H W Dp N K Mr : ℕ} (d : PINOData n H W Dp N K Mr)
    (ops : List PipelineOp) : PINOData n H W Dp N K Mr :=
  ops.foldl applyOp d

/-- `PINOModel.test`, baseline-inversion line: the model-free Helmholtz
estimate `Mu_pred = -1000 * (2 * np.pi * 80)**2 * u_pred / lu_pred`,
evaluated pointwise with no guard on the denominator. -/
def baselineModulus {N : ℕ} (u lu : Fin N → ℚ) : Fin N → ℚ :=
  fun nn => -1000 * (2 * npPi * 80) ^ 2 * u nn / lu nn


@[simp]
theorem Dual.val_add (a b : Dual) : (a + b).val = a.val + b.val := rfl

@[simp]
theorem Dual.grad_add (a b : Dual) : (a + b).grad = a.grad + b.grad := rfl

@[simp]
theorem Dual.val_mul (a b : Dual) : (a * b).val = a.val * b.val := rfl

@[simp]
theorem Dual.grad_mul (a b : Dual) :
    (a * b).grad = a.grad * b.val + a.val * b.grad := rfl

@[simp]
theorem Dual.val_zero : (0 : Dual).val = 0 := rfl

@[simp]
theorem Dual.grad_zero : (0 : Dual).grad = 0 := rfl

@[simp]
theorem Dual.val_one : (1 : Dual).val = 1 := rfl

@[simp]
theorem Dual.grad_one : (1 : Dual).grad = 0 := rfl

@[simp]
theorem Dual.val_two : (2 : Dual).val = 2 := rfl

@[simp]
theorem Dual.grad_two : (2 : Dual).grad = 0 := rfl

@[simp]
theorem Dual.val_const (q : ℚ) : (Dual.const q).val = q := rfl

@[simp]
theorem Dual.grad_const (q : ℚ) : (Dual.const q).grad = 0 := rfl

@[simp]
theorem Dual.val_detach (a : Dual) : a.detach.val = a.val := rfl

@[simp]
theorem Dual.grad_detach (a : Dual) : a.detach.grad = 0 := rfl

theorem Dual.sq_eq (a : Dual) : a ^ 2 = 1 * a * a := rfl

@[simp]
theorem Dual.val_sq (a : Dual) : (a ^ 2).val = a.val ^ 2 := by
  rw [Dual.sq_eq]
  simp only [Dual.val_mul, Dual.val_one]
  ring

@[simp]
theorem Dual.grad_sq (a : Dual) : (a ^ 2).grad = 2 * a.val * a.grad := by
  rw [Dual.sq_eq]
  simp only [Dual.grad_mul, Dual.val_mul, Dual.val_one, Dual.grad_one]
  ring

theorem foldl_add_proj (g : ℕ → ℚ) (h : Dual → ℚ) (f : ℕ → Dual)
    (hadd : ∀ (a : Dual) (j : ℕ), h (a + f j) = h a + g j) :
    ∀ (l : List ℕ) (init : Dual),
      h (l.foldl (fun acc j => acc + f j) init) = h init + (l.map g).sum := by
  intro l
  induction l with
  | nil => intro init; simp
  | cons j rest ih =>
    intro init
    simp only [List.foldl_cons, List.map_cons, List.sum_cons]
    rw [ih, hadd]
    ring

theorem range'_map_sum (g : ℕ → ℚ) :
    ∀ (len a : ℕ), ((List.range' a len).map g).sum = ∑ j in Finset.Ico a (a + len), g j := by
  intro len
  induction len with
  | zero => intro a; simp
  | succ len ih =>
    intro a
    rw [List.range'_succ]
    simp only [List.map_cons, List.sum_cons]
    rw [ih (a + 1)]
    rw [Finset.sum_eq_sum_Ico_succ_bot (by omega : a < a + (len + 1))]
    have h2 : a + 1 + len = a + (len + 1) := by omega
    rw [h2]

theorem laplacian_val (N M K dim : ℕ) (H : Hess N) (n : Fin N) (m : Fin M) :
    (laplacian H M K dim n m).val
      = ∑ j in Finset.Ico dim K, (H (if M > 1 then some m.val else none) j j n).val := by
  simp only [laplacian]
  rw [foldl_add_proj (fun j => (H (if M > 1 then some m.val else none) j j n).val)
    Dual.val _ (fun a j => rfl)]
  rw [range'_map_sum]
  rcases le_or_lt dim K with hle | hlt
  · have h2 : dim + (K - dim) = K := by omega
    rw [h2, Dual.val_zero]
    ring
  · have h2 : K - dim = 0 := by omega
    rw [h2]
    rw [Finset.Ico_eq_empty (by omega : ¬ dim < K)]
    simp

theorem laplacian_grad (N M K dim : ℕ) (H : Hess N) (n : Fin N) (m : Fin M) :
    (laplacian H M K dim n m).grad
      = ∑ j in Finset.Ico dim K, (H (if M > 1 then some m.val else none) j j n).grad := by
  simp only [laplacian]
  rw [foldl_add_proj (fun j => (H (if M > 1 then some m.val else none) j j n).grad)
    Dual.grad _ (fun a j => rfl)]
  rw [range'_map_sum]
  rcases le_or_lt dim K with hle | hlt
  · have h2 : dim + (K - dim) = K := by omega
    rw [h2, Dual.grad_zero]
    ring
  · have h2 : K - dim = 0 := by omega
    rw [h2]
    rw [Finset.Ico_eq_empty (by omega : ¬ dim < K)]
    simp

/-- C8: for every (N, M) output and (N, K) input, `laplacian(u, x, dim)`
returns an (N, M) tensor whose m-th column is the sum of the pure second
derivatives of output component m over input dimensions j in [dim, K);
when M = 1 the component selector passed to the hessian primitive is
`none` (per-component indexing is skipped) but the same sum is produced. -/
theorem laplacian_sums_pure_second_derivs :
    (∀ (N M K dim : ℕ) (H : Hess N) (n : Fin N) (m : Fin M),
      (laplacian H M K dim n m).val
          = ∑ j in Finset.Ico dim K, (H (if M > 1 then some m.val else none) j j n).val
        ∧ (laplacian H M K dim n m).grad
          = ∑ j in Finset.Ico dim K, (H (if M > 1 then some m.val else none) j j n).grad)
    ∧ ∀ (N K dim : ℕ) (H : Hess N) (n : Fin N),
      (laplacian H 1 K dim n 0).val = ∑ j in Finset.Ico dim K, (H none j j n).val
        ∧ (laplacian H 1 K dim n 0).grad = ∑ j in Finset.Ico dim K, (H none j j n).grad := by
  constructor
  · intro N M K dim H n m
    exact ⟨laplacian_val N M K dim H n m, laplacian_grad N M K dim H n m⟩
  · intro N K dim H n
    constructor
    · rw [laplacian_val]
      simp
    · rw [laplacian_grad]
      simp

/-- C1: for every (N, 4) input tensor x of columns omega,x,y,z and (N, 4)
output tensor of columns ux,uy,uz,mu, calling a `WaveEquation` instance
returns (in value) the residual `mu * Laplacian(u) + rho * (2*pi*omega)**2 * u`
where u is all output columns but the last, mu is the last output column,
omega is the first input column, and rho is the density fixed at
construction, which defaults to 1000. -/
theorem waveEquation_call_residual :
    (∀ (dFlag : Bool) (rho : ℚ) (N : ℕ) (H : Hess N)
      (x outputs : Fin N → Fin 4 → Dual) (n : Fin N) (m : Fin 3),
      ((WaveEquation.init dFlag rho).call H x outputs n m).val
        = (outputs n 3).val * (laplacian H 3 4 1 n m).val
          + rho * (2 * npPi * (x n 0).val) ^ 2 * (outputs n (Fin.castSucc m)).val)
    ∧ ∀ dFlag : Bool, (WaveEquation.init dFlag).rho = 1000 := by
  constructor
  · intro dFlag rho N H x outputs n m
    cases dFlag <;>
      simp only [WaveEquation.call, WaveEquation.init, Bool.false_eq_true, if_false, if_true,
        Dual.val_add, Dual.val_mul, Dual.val_sq, Dual.val_const, Dual.val_detach,
        Dual.val_two]
  · intro dFlag
    rfl

theorem call_detach_grad_zero (rho : ℚ) (N : ℕ) (H : Hess N)
    (x outputs : Fin N → Fin 4 → Dual)
    (hmu : ∀ n : Fin N, (outputs n 3).grad = 0)
    (hx : ∀ (n : Fin N) (k : Fin 4), (x n k).grad = 0) :
    ∀ (n : Fin N) (m : Fin 3),
      ((WaveEquation.init true rho).call H x outputs n m).grad = 0 := by
  intro n m
  simp only [WaveEquation.call, WaveEquation.init, if_true, Dual.grad_add, Dual.grad_mul,
    Dual.grad_sq, Dual.val_sq, Dual.grad_detach, Dual.val_detach, Dual.grad_const,
    Dual.val_const, Dual.val_two, Dual.grad_two, Dual.val_mul]
  rw [hmu n, hx n 0]
  ring

theorem foldl_inner_grad_zero {N : ℕ} (res : Fin N → Fin 3 → Dual)
    (hz : ∀ (n : Fin N) (m : Fin 3), (res n m).grad = 0) (n : Fin N) :
    ∀ (l : List (Fin 3)) (acc : Dual), acc.grad = 0 →
      (l.foldl (fun a2 m => a2 + res n m * res n m) acc).grad = 0 := by
  intro l
  induction l with
  | nil => intro acc h; exact h
  | cons m rest ih =>
    intro acc h
    simp only [List.foldl_cons]
    apply ih
    simp [h, hz n m]

theorem sumSq_grad_zero {N : ℕ} (res : Fin N → Fin 3 → Dual)
    (hz : ∀ (n : Fin N) (m : Fin 3), (res n m).grad = 0) :
    (sumSq res).grad = 0 := by
  have outer : ∀ (l : List (Fin N)) (acc : Dual), acc.grad = 0 →
      (l.foldl (fun acc n => (List.finRange 3).foldl
        (fun a2 m => a2 + res n m * res n m) acc) acc).grad = 0 := by
    intro l
    induction l with
    | nil => intro acc h; exact h
    | cons n rest ih =>
      intro acc h
      simp only [List.foldl_cons]
      exact ih _ (foldl_inner_grad_zero res hz n (List.finRange 3) acc h)
  exact outer (List.finRange N) 0 rfl

/-- C7: when the detach flag is true, displacement and its Laplacian are
detached before the residual is formed, so the PDE loss has gradient
exactly zero with respect to the displacement-network parameter (for any
inputs whose modulus prediction and coordinates are insensitive to that
parameter, whatever sensitivities the displacement and its second
derivatives carry); when the flag is false the residual keeps gradient
tracking through the displacement, and there is a nontrivial residual
with nonzero PDE-loss gradient. -/
theorem detach_blocks_displacement_gradient :
    (∀ (rho : ℚ) (N : ℕ) (H : Hess N) (x outputs : Fin N → Fin 4 → Dual),
      (∀ n : Fin N, (outputs n 3).grad = 0) →
      (∀ (n : Fin N) (k : Fin 4), (x n k).grad = 0) →
      (sumSq ((WaveEquation.init true rho).call H x outputs)).grad = 0)
    ∧ ∃ (H : Hess 1) (x outputs : Fin 1 → Fin 4 → Dual),
      (∀ n : Fin 1, (outputs n 3).grad = 0)
        ∧ (∀ (n : Fin 1) (k : Fin 4), (x n k).grad = 0)
        ∧ (sumSq ((WaveEquation.init false 1000).call H x outputs)).grad ≠ 0 := by
  constructor
  · intro rho N H x outputs hmu hx
    exact sumSq_grad_zero _ (call_detach_grad_zero rho N H x outputs hmu hx)
  · refine ⟨(fun _ _ _ _ => ⟨1, 1⟩ : Hess 1), fun _ _ => ⟨0, 0⟩,
      fun _ m => if m.val < 3 then ⟨1, 1⟩ else ⟨1, 0⟩, by decide, by decide, ?_⟩
    have hval : ∀ (n : Fin 1) (m : Fin 3),
        ((WaveEquation.init false 1000).call (fun _ _ _ _ => (⟨1, 1⟩ : Dual))
          (fun _ _ => ⟨0, 0⟩)
          (fun _ m => if m.val < 3 then ⟨1, 1⟩ else ⟨1, 0⟩) n m).val = 3 := by
      intro n m
      simp only [WaveEquation.call, WaveEquation.init, Bool.false_eq_true, if_false,
        Dual.val_add, Dual.val_mul, Dual.val_sq, Dual.val_const, Dual.val_two]
      rw [if_neg (by decide : ¬ ((3 : Fin 4)).val < 3)]
      rw [if_pos (by simp : ((Fin.castSucc m)).val < 3)]
      rw [laplacian_val]
      norm_num [Finset.sum_const, Nat.card_Ico]
    have hgrad : ∀ (n : Fin 1) (m : Fin 3),
        ((WaveEquation.init false 1000).call (fun _ _ _ _ => (⟨1, 1⟩ : Dual))
          (fun _ _ => ⟨0, 0⟩)
          (fun _ m => if m.val < 3 then ⟨1, 1⟩ else ⟨1, 0⟩) n m).grad = 3 := by
      intro n m
      simp only [WaveEquation.call, WaveEquation.init, Bool.false_eq_true, if_false,
        Dual.grad_add, Dual.grad_mul, Dual.grad_sq, Dual.val_sq, Dual.val_mul,
        Dual.val_add, Dual.val_const, Dual.grad_const, Dual.val_two, Dual.grad_two]
      rw [if_neg (by decide : ¬ ((3 : Fin 4)).val < 3)]
      rw [if_pos (by simp : ((Fin.castSucc m)).val < 3)]
      rw [laplacian_val, laplacian_grad]
      norm_num [Finset.sum_const, Nat.card_Ico]
    have hfin1 : List.finRange 1 = [0] := by decide
    have hfin3 : List.finRange 3 = [0, 1, 2] := by decide
    simp only [sumSq, hfin1, hfin3, List.foldl_cons, List.foldl_nil,
      Dual.grad_add, Dual.grad_mul, Dual.grad_zero, Dual.val_zero]
    rw [hval, hval, hval, hgrad, hgrad, hgrad]
    norm_num

/-- Witness for C7: the detach-enabled zero-gradient statement discharged
at a concrete hessian oracle, coordinate tensor and output tensor. -/
theorem detach_blocks_displacement_gradient_witness :
    (sumSq ((WaveEquation.init true 1000).call
      (fun _ _ _ _ => ⟨1, 1⟩ : Hess 1)
      (fun _ _ => ⟨0, 0⟩ : Fin 1 → Fin 4 → Dual)
      (fun _ m => if m.val < 3 then ⟨1, 1⟩ else ⟨1, 0⟩ :
        Fin 1 → Fin 4 → Dual))).grad = 0 :=
  detach_blocks_displacement_gradient.1 1000 1
    (fun _ _ _ _ => ⟨1, 1⟩ : Hess 1)
    (fun _ _ => ⟨0, 0⟩ : Fin 1 → Fin 4 → Dual)
    (fun _ m => if m.val < 3 then ⟨1, 1⟩ else ⟨1, 0⟩ : Fin 1 → Fin 4 → Dual)
    (by decide) (by decide)

/-- C4: predict enables gradient tracking on the coordinate tensor before
the forward pass, runs the network to obtain the displacement and modulus
predictions, computes the Laplacian of the predicted displacement, splits
the PDE residual into traction and body-force components (whose pointwise
sum is the operator-style residual), and returns all of these quantities. -/
theorem predict_returns_decomposition :
    ∀ (A : Type) (N K M : ℕ)
      (net : A → GradTensor N (K + 1) → Bool →
        (Fin N → Fin M → Dual) × (Fin N → Fin 1 → Dual))
      (H : Hess N) (pdeEq : WaveEquation) (a : A) (x : GradTensor N (K + 1)),
      predict net H pdeEq a x
          = ((net a ⟨x.val, true⟩ true).1, (net a ⟨x.val, true⟩ true).2,
             laplacian H M (K + 1) 0,
             (pdeEq.traction_and_body_forces H x.val (net a ⟨x.val, true⟩ true).1
               (net a ⟨x.val, true⟩ true).2).1,
             (pdeEq.traction_and_body_forces H x.val (net a ⟨x.val, true⟩ true).1
               (net a ⟨x.val, true⟩ true).2).2)
        ∧ ∀ (u : Fin N → Fin M → Dual) (mu : Fin N → Fin 1 → Dual)
            (n : Fin N) (m : Fin M),
            (pdeEq.traction_and_body_forces H x.val u mu).1 n m
                + (pdeEq.traction_and_body_forces H x.val u mu).2 n m
              = mu n 0 * laplacian H M (K + 1) 1 n m
                + Dual.const pdeEq.rho * (2 * Dual.const npPi * x.val n 0) ^ 2 * u n m :=
  fun _ _ _ _ _ _ _ _ _ => ⟨rfl, fun _ _ _ _ => rfl⟩

/-- C2 evaluation: with patch_size set, get_tensors executes
`n_x, n_y, n_z = y.shape[:3]` where `y` is an undefined name, so the call
raises NameError instead of cropping a patch; evaluated here at
patch_size 4 on a concrete 8 x 8 x 4 patient record. -/
theorem getTensors_patch_raises_name_error :
    getTensors
      (⟨fun _ _ _ => 0, fun _ _ _ => 0, fun _ _ _ => 0, fun _ _ _ => 0,
        fun _ _ _ => 0, fun _ _ _ _ => 0, fun _ _ _ => 0, fun _ _ _ => 0⟩ :
        Patient 8 8 4)
      (some 4) = Except.error "NameError: name y is not defined" := rfl

/-- C9: with patch_size unset, get_tensors returns as inputs the pair of
the wave displacement and the 1e-3-scaled coordinates (not the anatomical
stack); the result does not depend on the four t1_pre channels at all;
the targets tensor is the concatenation of displacement, elastogram and
mask along the last axis; and the auxiliary component is the empty tuple. -/
theorem getTensors_inputs_targets_structure :
    ∀ (H W Dp : ℕ)
      (t1a t1b t1c t1d wv mr msk : Fin H → Fin W → Fin Dp → ℚ)
      (t1a2 t1b2 t1c2 t1d2 : Fin H → Fin W → Fin Dp → ℚ)
      (pts : Fin H → Fin W → Fin Dp → Fin 3 → ℚ),
      getTensors ⟨t1a, t1b, t1c, t1d, wv, pts, mr, msk⟩ none
          = getTensors ⟨t1a2, t1b2, t1c2, t1d2, wv, pts, mr, msk⟩ none
        ∧ getTensors ⟨t1a, t1b, t1c, t1d, wv, pts, mr, msk⟩ none
          = Except.ok
              ((fun i j k _ => wv i j k, fun i j k c => pts i j k c * (1 / 1000)),
               (fun i j k c =>
                 if c.val = 0 then wv i j k
                 else if c.val = 1 then mr i j k
                 else msk i j k), ()) := by
  intro H W Dp t1a t1b t1c t1d wv mr msk t1a2 t1b2 t1c2 t1d2 pts
  exact ⟨rfl, rfl⟩

/-- C3: losses splits the targets tensor along the last axis into
displacement truth, modulus truth and mask, and returns exactly the
ordered triple of the displacement data loss, the modulus data loss and
the PDE-residual loss (the residual compared against zero), each via the
caller-supplied loss function at the instance's mask strength, with no
combination or weighting of the three terms. -/
theorem losses_ordered_triple :
    ∀ (n H W Dp N K Mr : ℕ) (d : PINOData n H W Dp N K Mr)
      (targets : Fin N → Fin 3 → ℚ)
      (u_pred mu_pred : Fin N → Fin 1 → ℚ) (rest : List (Fin N → Fin 1 → ℚ))
      (loss_fn : (M : ℕ) → (Fin N → Fin M → ℚ) → (Fin N → Fin M → ℚ) →
        (Fin N → Fin 1 → ℚ) → ℚ → ℚ)
      (a : Fin N → Fin 1 → ℚ) (x : Fin N → Fin K → ℚ),
      d.losses targets (u_pred :: mu_pred :: rest) loss_fn (a, x) () none
        = Except.ok
            [loss_fn 1 (fun nn _ => targets nn 0) u_pred
               (fun nn _ => targets nn 2) d.mask_level,
             loss_fn 1 (fun nn _ => targets nn 1) mu_pred
               (fun nn _ => targets nn 2) d.mask_level,
             loss_fn Mr (fun _ _ => 0) (d.pde x u_pred mu_pred)
               (fun nn _ => targets nn 2) d.mask_level] := by
  intro n H W Dp N K Mr d targets u_pred mu_pred rest loss_fn a x
  rfl

theorem applyOp_fields {n H W Dp N K Mr : ℕ} (d : PINOData n H W Dp N K Mr)
    (op : PipelineOp) :
    (applyOp d op).mask_level = d.mask_level ∧ (applyOp d op).pde = d.pde := by
  cases op <;> exact ⟨rfl, rfl⟩

theorem applyOps_fields {n H W Dp N K Mr : ℕ} :
    ∀ (ops : List PipelineOp) (d : PINOData n H W Dp N K Mr),
      (applyOps d ops).mask_level = d.mask_level ∧ (applyOps d ops).pde = d.pde := by
  intro ops
  induction ops with
  | nil => intro d; exact ⟨rfl, rfl⟩
  | cons op rest ih =>
    intro d
    have step : applyOps d (op :: rest) = applyOps (applyOp d op) rest := rfl
    rw [step]
    exact ⟨(ih (applyOp d op)).1.trans (applyOp_fields d op).1,
      (ih (applyOp d op)).2.trans (applyOp_fields d op).2⟩

/-- C10: the mask-strength scalar is fixed at 1.0 by the constructor and
never modified by any pipeline operation, so after any sequence of batch
draws every losses call applies the caller-supplied loss function with
mask strength exactly 1.0. -/
theorem mask_level_fixed_at_one :
    ∀ (n H W Dp N K Mr : ℕ) (cohort : Fin n → Patient H W Dp)
      (pde : (Fin N → Fin K → ℚ) → (Fin N → Fin 1 → ℚ) → (Fin N → Fin 1 → ℚ) →
        Fin N → Fin Mr → ℚ)
      (ps bs : Option ℕ) (dev : String) (rand : ℕ → List (Fin n))
      (ops : List PipelineOp)
      (targets : Fin N → Fin 3 → ℚ)
      (u_pred mu_pred : Fin N → Fin 1 → ℚ) (rest : List (Fin N → Fin 1 → ℚ))
      (loss_fn : (M : ℕ) → (Fin N → Fin M → ℚ) → (Fin N → Fin M → ℚ) →
        (Fin N → Fin 1 → ℚ) → ℚ → ℚ)
      (a : Fin N → Fin 1 → ℚ) (x : Fin N → Fin K → ℚ),
      (applyOps (PINOData.init cohort pde ps bs dev rand) ops).mask_level = 1
        ∧ (applyOps (PINOData.init cohort pde ps bs dev rand) ops).losses targets
            (u_pred :: mu_pred :: rest) loss_fn (a, x) () none
          = Except.ok
              [loss_fn 1 (fun nn _ => targets nn 0) u_pred
                 (fun nn _ => targets nn 2) 1,
               loss_fn 1 (fun nn _ => targets nn 1) mu_pred
                 (fun nn _ => targets nn 2) 1,
               loss_fn Mr (fun _ _ => 0) (pde x u_pred mu_pred)
                 (fun nn _ => targets nn 2) 1] := by
  intro n H W Dp N K Mr cohort pde ps bs dev rand ops targets u_pred mu_pred rest loss_fn a x
  have hm : (applyOps (PINOData.init cohort pde ps bs dev rand) ops).mask_level = 1 :=
    (applyOps_fields ops (PINOData.init cohort pde ps bs dev rand)).1.trans rfl
  have hp : (applyOps (PINOData.init cohort pde ps bs dev rand) ops).pde = pde :=
    (applyOps_fields ops (PINOData.init cohort pde ps bs dev rand)).2.trans rfl
  refine ⟨hm, ?_⟩
  have base : (applyOps (PINOData.init cohort pde ps bs dev rand) ops).losses targets
      (u_pred :: mu_pred :: rest) loss_fn (a, x) () none
      = Except.ok
          [loss_fn 1 (fun nn _ => targets nn 0) u_pred (fun nn _ => targets nn 2)
             (applyOps (PINOData.init cohort pde ps bs dev rand) ops).mask_level,
           loss_fn 1 (fun nn _ => targets nn 1) mu_pred (fun nn _ => targets nn 2)
             (applyOps (PINOData.init cohort pde ps bs dev rand) ops).mask_level,
           loss_fn Mr (fun _ _ => 0)
             ((applyOps (PINOData.init cohort pde ps bs dev rand) ops).pde x u_pred mu_pred)
             (fun nn _ => targets nn 2)
             (applyOps (PINOData.init cohort pde ps bs dev rand) ops).mask_level] := rfl
  rw [base, hm, hp]

theorem getNext_le {n : ℕ} (s : BatchSampler n) (B : ℕ) (h : s.cursor + B ≤ n) :
    s.getNext B = ((s.order.drop s.cursor).take B, { s with cursor := s.cursor + B }) := by
  unfold BatchSampler.getNext
  rw [if_pos h]

theorem collectE_map_ok {α β : Type} (f : α → Except String β) (g : α → β)
    (hf : ∀ i, f i = Except.ok (g i)) :
    ∀ l : List α, collectE (l.map f) = Except.ok (l.map g) := by
  intro l
  induction l with
  | nil => rfl
  | cons i rest ih =>
    simp only [List.map_cons]
    rw [hf i]
    show collectE (Except.ok (g i) :: rest.map f) = _
    simp only [collectE]
    rw [ih]

theorem epochDraws_spec {n : ℕ} (B : ℕ) :
    ∀ (q : ℕ) (s : BatchSampler n), s.cursor + q * B ≤ n →
      (epochDraws s B q).1 = (s.order.drop s.cursor).take (q * B)
        ∧ (epochDraws s B q).2 = { s with cursor := s.cursor + q * B } := by
  intro q
  induction q with
  | zero =>
    intro s h
    constructor
    · simp [epochDraws]
    · simp [epochDraws]
  | succ q ih =>
    intro s h
    have hexp : (q + 1) * B = q * B + B := by ring
    rw [hexp] at h
    have hB : s.cursor + B ≤ n :=
      le_trans (Nat.add_le_add_left (Nat.le_add_left B (q * B)) s.cursor) h
    have hq : s.cursor + B + q * B ≤ n := by
      have e : s.cursor + B + q * B = s.cursor + (q * B + B) := by ring
      rw [e]
      exact h
    have hfirst : s.getNext B
        = ((s.order.drop s.cursor).take B, { s with cursor := s.cursor + B }) :=
      getNext_le s B hB
    obtain ⟨ih1, ih2⟩ := ih { s with cursor := s.cursor + B } hq
    constructor
    · show (s.getNext B).1 ++ (epochDraws (s.getNext B).2 B q).1 = _
      rw [hfirst]
      show (s.order.drop s.cursor).take B
          ++ (epochDraws { s with cursor := s.cursor + B } B q).1
          = (s.order.drop s.cursor).take ((q + 1) * B)
      rw [ih1]
      show (s.order.drop s.cursor).take B
          ++ (s.order.drop (s.cursor + B)).take (q * B)
          = (s.order.drop s.cursor).take ((q + 1) * B)
      rw [hexp, Nat.add_comm (q * B) B, List.take_add]
      congr 1
      rw [List.drop_drop]
    · show (epochDraws (s.getNext B).2 B q).2 = _
      rw [hfirst]
      show (epochDraws { s with cursor := s.cursor + B } B q).2 = _
      rw [ih2]
      show ({ s with cursor := s.cursor + B + q * B } : BatchSampler n) = _
      have e2 : s.cursor + B + q * B = s.cursor + (q + 1) * B := by ring
      rw [e2]

theorem train_next_batch_returns_inds {n H W Dp N K Mr : ℕ}
    (d : PINOData n H W Dp N K Mr) (B : ℕ) (hp : d.patch_size = none) :
    (d.train_next_batch (some B) true).1
      = Except.ok (Sum.inl (stackBatch d (d.sampler.getNext B).1,
          (d.sampler.getNext B).1)) := by
  have hcol : collectE ((d.sampler.getNext B).1.map
        fun i => getTensors (d.cohort i) d.patch_size)
      = Except.ok ((d.sampler.getNext B).1.map fun i => getTensorsOk (d.cohort i)) := by
    rw [hp]
    exact collectE_map_ok _ _ (fun i => rfl) _
  simp only [PINOData.train_next_batch]
  rw [hcol]
  simp [stackBatch]

/-- C5: starting from a fresh shuffled epoch ordering, repeated
train_next_batch draws of size B take indices without replacement: when
n = q * B, the q successive draws concatenate to a permutation of all
patient indices (no index skipped or duplicated within the epoch); the
draw after exhaustion reshuffles from a fresh epoch ordering of the
randomness stream; and the drawn indices are returned alongside the
stacked batch exactly when return_inds is requested. -/
theorem train_next_batch_epoch_exhaustive :
    ∀ (n B q : ℕ) (s : BatchSampler n),
      s.order.Perm (List.finRange n) → s.cursor = 0 → n = q * B → 0 < B →
      (epochDraws s B q).1.Perm (List.finRange n)
        ∧ (epochDraws s B q).2.cursor = n
        ∧ ((epochDraws s B q).2.getNext B).2.order = s.stream s.epoch
        ∧ ∀ (H W Dp N K Mr : ℕ) (d : PINOData n H W Dp N K Mr),
            d.sampler = s → d.patch_size = none →
            (d.train_next_batch (some B) true).1
              = Except.ok (Sum.inl (stackBatch d (s.getNext B).1, (s.getNext B).1)) := by
  intro n B q s hperm hc hn hB
  have hle : s.cursor + q * B ≤ n := by
    rw [hc, hn]
    simp
  obtain ⟨hd1, hd2⟩ := epochDraws_spec B q s hle
  have hlen : s.order.length = n := by
    have hl := hperm.length_eq
    simpa using hl
  refine ⟨?_, ?_, ?_, ?_⟩
  · rw [hd1, hc, List.drop_zero, ← hn]
    rw [List.take_of_length_le (le_of_eq hlen)]
    exact hperm
  · rw [hd2]
    show s.cursor + q * B = n
    rw [hc, ← hn]
    omega
  · rw [hd2]
    show ({ s with cursor := s.cursor + q * B } : BatchSampler n).getNext B
        |>.2.order = s.stream s.epoch
    unfold BatchSampler.getNext
    have hcond : ¬ (({ s with cursor := s.cursor + q * B } :
        BatchSampler n).cursor + B ≤ n) := by
      show ¬ (s.cursor + q * B + B ≤ n)
      rw [hc, ← hn]
      omega
    rw [if_neg hcond]
  · intro H W Dp N K Mr d hs hp
    rw [← hs]
    exact train_next_batch_returns_inds d B hp

/-- Witness for C5: the exhaustive-epoch statement discharged at a
concrete sampler over four patients with batch size two and the epoch
ordering [2, 0, 3, 1]. -/
theorem train_next_batch_epoch_exhaustive_witness :
    (epochDraws
      (⟨[2, 0, 3, 1], 0, 1, fun _ => [0, 1, 2, 3]⟩ : BatchSampler 4) 2 2).1.Perm
      (List.finRange 4) :=
  (train_next_batch_epoch_exhaustive 4 2 2
    (⟨[2, 0, 3, 1], 0, 1, fun _ => [0, 1, 2, 3]⟩ : BatchSampler 4)
    (by decide) rfl rfl (by decide)).1

/-- C6: PINOModel.test derives the model-free baseline modulus pointwise
as -1000 * (2 * pi * 80)^2 * u_pred / lu_pred, with rho = 1000 and f = 80,
and the pointwise division carries no guard against near-zero
denominators: below every bound on the denominator there are inputs with
nonzero denominator whose quotient exceeds any prescribed magnitude (no
masking, clamping or flagged-value propagation takes place). -/
theorem baseline_modulus_unguarded :
    (∀ (N : ℕ) (u lu : Fin N → ℚ) (nn : Fin N),
      baselineModulus u lu nn = -1000 * (2 * npPi * 80) ^ 2 * u nn / lu nn)
    ∧ ∀ M : ℚ, 0 < M →
      ∃ u lu : Fin 1 → ℚ,
        lu 0 ≠ 0 ∧ |lu 0| < 1 / M ∧ |baselineModulus u lu 0| > M := by
  constructor
  · intro N u lu nn
    rfl
  · intro M hM
    have h1 : (0 : ℚ) < M + 1 := by linarith
    refine ⟨fun _ => 1, fun _ => 1 / (M + 1), ?_, ?_, ?_⟩
    · exact ne_of_gt (div_pos one_pos h1)
    · rw [abs_of_pos (div_pos one_pos h1)]
      exact one_div_lt_one_div_of_lt hM (by linarith)
    · have hE : (1 : ℚ) ≤ 1000 * (2 * npPi * 80) ^ 2 := by norm_num [npPi]
      simp only [baselineModulus]
      rw [mul_one, one_div, div_inv_eq_mul]
      have hstep : (1 : ℚ) * (M + 1) ≤ (1000 * (2 * npPi * 80) ^ 2) * (M + 1) :=
        mul_le_mul_of_nonneg_right hE (le_of_lt h1)
      rw [abs_mul]
      rw [abs_of_pos h1]
      have habs : |(-1000 : ℚ) * (2 * npPi * 80) ^ 2| = 1000 * (2 * npPi * 80) ^ 2 := by
        rw [abs_mul, abs_of_nonneg (sq_nonneg (2 * npPi * 80))]
        norm_num
      calc M < 1 * (M + 1) := by linarith
      _ ≤ (1000 * (2 * npPi * 80) ^ 2) * (M + 1) := hstep
      _ = |(-1000 : ℚ) * (2 * npPi * 80) ^ 2| * (M + 1) := by rw [habs]

/-- Witness for C6: the unguarded-division statement discharged at the
bound M = 1. -/
theorem baseline_modulus_unguarded_witness :
    ∃ u lu : Fin 1 → ℚ,
      lu 0 ≠ 0 ∧ |lu 0| < 1 / 1 ∧ |baselineModulus u lu 0| > 1 :=
  baseline_modulus_unguarded.2 1 one_pos
